import Mathlib

/-!
Verification of the Open/R link-monitor, prefix-selection and MPLS
next-hop selection logic, shallowly embedded from the C++ sources
(LinkMonitor.cpp and the utility header).

Association lists stand in for the C++ `std::unordered_map` /
`std::map` containers: a map is a list of key-value pairs whose keys
are pairwise distinct (the `Nodup` hypothesis in theorems).  All
statements about map-valued results are phrased through lookups and
key membership, which is independent of iteration order.
-/

namespace Openr

/-! ## Association list kit (model of std::unordered_map) -/

def alistLookup {α β : Type} [DecidableEq α] : List (α × β) → α → Option β
  | [], _ => none
  | (k, v) :: rest, a => if k = a then some v else alistLookup rest a

/-- Model of `it->second = b` after a successful find: update the value
stored at the first occurrence of the key, leaving the list unchanged when
the key is absent. -/
def alistUpdate {α β : Type} [DecidableEq α] : List (α × β) → α → β → List (α × β)
  | [], _, _ => []
  | (k, v) :: rest, a, b =>
    if k = a then (k, b) :: rest else (k, v) :: alistUpdate rest a b

/-- Model of `map[a] = b`: overwrite if present, append otherwise. -/
def alistInsert {α β : Type} [DecidableEq α] (l : List (α × β)) (a : α) (b : β) :
    List (α × β) :=
  if (alistLookup l a).isSome then alistUpdate l a b else l ++ [(a, b)]

/-- Model of `map.erase(a)`: drop the first occurrence of the key. -/
def alistErase {α β : Type} [DecidableEq α] : List (α × β) → α → List (α × β)
  | [], _ => []
  | (k, v) :: rest, a => if k = a then rest else (k, v) :: alistErase rest a

/-- Kernel-reducible decidability for the lexicographic String order,
routed through the character list (the library instance reduces through
string iterators, which concrete evaluation cannot unfold). -/
instance stringLtDecidable (a b : String) : Decidable (a < b) :=
  decidable_of_iff (a.toList < b.toList) String.lt_iff_toList_lt.symm

/-! ## Data model (thrift structures used by LinkMonitor) -/

/-- Key of the `adjacencies_` map: pair of remote node name and local
interface name.  The same shape serves as `thrift::AdjKey` for the
adjacency-metric override map. -/
structure AdjacencyKey where
  nodeName : String
  ifName : String

deriving DecidableEq

/-- `thrift::PeerSpec`: how to reach a KvStore peer. -/
structure PeerSpec where
  cmdUrl : String
  peerAddr : String
  ctrlPort : Int

deriving DecidableEq

/-- `thrift::Adjacency` as built by `createThriftAdjacency`. -/
structure Adjacency where
  otherNodeName : String
  ifName : String
  nextHopV6 : String
  nextHopV4 : String
  metric : Int
  adjLabel : Int
  isOverloaded : Bool
  rtt : Int
  timestamp : Int
  weight : Int
  otherIfName : String

deriving DecidableEq

/-- `AdjacencyValue` stored in the `adjacencies_` map of LinkMonitor. -/
structure AdjacencyValue where
  area : String
  peerSpec : PeerSpec
  adjacency : Adjacency
  isRestarting : Bool

deriving DecidableEq

/-- `thrift::LinkMonitorState`, the persisted drain / override state. -/
structure LinkMonitorState where
  isOverloaded : Bool
  overloadedLinks : List String
  nodeLabel : Int
  linkMetricOverrides : List (String × Int)
  adjMetricOverrides : List (AdjacencyKey × Int)

deriving DecidableEq

/-- Thrift-default `LinkMonitorState` (all fields zero or empty). -/
def defaultLinkMonitorState : LinkMonitorState :=
  { isOverloaded := false
    overloadedLinks := []
    nodeLabel := 0
    linkMetricOverrides := []
    adjMetricOverrides := [] }

/-- `thrift::AdjacencyDatabase`, the value advertised under `adj:<node>`. -/
structure AdjacencyDatabase where
  thisNodeName : String
  isOverloaded : Bool
  adjacencies : List Adjacency
  nodeLabel : Int
  area : String

deriving DecidableEq

/-! ## Startup state initialisation (LinkMonitor constructor) -/

/-- LinkMonitor constructor, state-initialisation part: load persisted
state from key `link-monitor-config` when available (`loaded`), else
start from the thrift default with `isOverloaded` taken from the
`assumeDrained` flag; then, when `overrideDrainState` is set, force
`isOverloaded` to `assumeDrained`. -/
def initialLinkMonitorState (loaded : Option LinkMonitorState)
    (assumeDrained overrideDrainState : Bool) : LinkMonitorState :=
  let st :=
    match loaded with
    | some s => s
    | none => { defaultLinkMonitorState with isOverloaded := assumeDrained }
  if overrideDrainState then { st with isOverloaded := assumeDrained } else st

/-! ## Metric pipeline -/

/-- `getRttMetric`: convert measured rtt in microseconds to a metric,
`std::max((int)(rttUs / 100), (int)1)`.  The measured rtt is
nonnegative, so `Nat` division coincides with the C++ division. -/
def getRttMetric (rttUs : Nat) : Int :=
  max ((rttUs / 100 : Nat) : Int) 1

/-- The adjacency constructed in `LinkMonitor::neighborUpEvent` via
`createThriftAdjacency`. -/
def neighborUpAdjacency (useRttMetric enableSegmentRouting : Bool)
    (remoteNodeName localIfName nextHopV6 nextHopV4 : String)
    (label : Int) (rttUs : Nat) (timestamp weight : Int)
    (remoteIfName : String) : Adjacency :=
  { otherNodeName := remoteNodeName
    ifName := localIfName
    nextHopV6 := nextHopV6
    nextHopV4 := nextHopV4
    metric := if useRttMetric then getRttMetric rttUs else 1
    adjLabel := if enableSegmentRouting then label else 0
    isOverloaded := false
    rtt := if useRttMetric then (rttUs : Int) else 0
    timestamp := timestamp
    weight := weight
    otherIfName := remoteIfName }

/-- Loop body of `LinkMonitor::buildAdjacencyDatabase`: set the link
overload bit from state, then override the metric first with the
link-metric override and then with the adjacency-metric override. -/
def overrideAdjacency (state : LinkMonitorState) (adj : Adjacency) : Adjacency :=
  let adj1 := { adj with isOverloaded := adj.ifName ∈ state.overloadedLinks }
  let adj2 :=
    { adj1 with
      metric := (alistLookup state.linkMetricOverrides adj1.ifName).getD adj1.metric }
  let adjKey : AdjacencyKey := { nodeName := adj2.otherNodeName, ifName := adj2.ifName }
  { adj2 with
    metric := (alistLookup state.adjMetricOverrides adjKey).getD adj2.metric }

/-- `LinkMonitor::buildAdjacencyDatabase`: the advertised
AdjacencyDatabase for one area. -/
def buildAdjacencyDatabase (nodeId : String) (enableSegmentRouting : Bool)
    (state : LinkMonitorState)
    (adjacencies : List (AdjacencyKey × AdjacencyValue)) (area : String) :
    AdjacencyDatabase :=
  { thisNodeName := nodeId
    isOverloaded := state.isOverloaded
    nodeLabel := if enableSegmentRouting then state.nodeLabel else 0
    area := area
    adjacencies :=
      (adjacencies.filter (fun e => e.2.area = area)).map
        (fun e => overrideAdjacency state e.2.adjacency) }

/-! ## MPLS next-hop selection (Fib) -/

inductive MplsActionCode
  | PUSH
  | SWAP
  | PHP
  | POP_AND_LOOKUP

deriving DecidableEq

structure MplsAction where
  action : MplsActionCode
  swapLabel : Option Int
  pushLabels : Option (List Int)

deriving DecidableEq

structure NextHopThrift where
  address : String
  ifName : Option String
  metric : Int
  mplsAction : Option MplsAction

deriving DecidableEq

def nextHopHasAction (code : MplsActionCode) (nh : NextHopThrift) : Bool :=
  match nh.mplsAction with
  | some act => act.action = code
  | none => false

def actionCodeOf (nh : NextHopThrift) : Option MplsActionCode :=
  nh.mplsAction.map MplsAction.action

/-- Modelled from the spec: the body of `selectMplsNextHops` is not part of
the source extract (only its declaration and doc comment in the utility
header are).  Per that doc comment and section 4.5 of the spec, the
function returns the subset of the next-hops of one MPLS route sharing one
MplsActionCode, preferring PHP (immediate) next-hops over SWAP (in-direct)
next-hops: when any PHP next-hop is present, all SWAP next-hops are
dropped. -/
def selectMplsNextHops (nextHops : List NextHopThrift) : List NextHopThrift :=
  if nextHops.any (nextHopHasAction MplsActionCode.PHP) then
    nextHops.filter (nextHopHasAction MplsActionCode.PHP)
  else
    nextHops.filter (nextHopHasAction MplsActionCode.SWAP)

/-! ## Prefix entries -/

inductive PrefixForwardingType
  | IP
  | SR_MPLS

deriving DecidableEq

inductive PrefixForwardingAlgorithm
  | SP_ECMP
  | KSP2_ED_ECMP

deriving DecidableEq

/-- `thrift::PrefixMetrics`. -/
structure PrefixMetrics where
  path_preference : Int
  source_preference : Int
  distance : Int

deriving DecidableEq

/-- `thrift::PrefixEntry` (fields the claims touch). -/
structure PrefixEntry where
  network : String
  forwardingType : PrefixForwardingType
  forwardingAlgorithm : PrefixForwardingAlgorithm
  tags : List String
  metrics : PrefixMetrics

deriving DecidableEq

/-- Modelled from the spec: Constants.h is not part of the extract; the
concrete default preference values do not matter to any claim. -/
def kDefaultPathPreference : Int := 1000

/-- Modelled from the spec: Constants.h is not part of the extract. -/
def kDefaultSourcePreference : Int := 200

/-! ## LinkMonitor context and the action-trace model of commands

Each RPC command runs as a lambda on the event base; we model one run as
a pure function from the component state to the new persisted state plus
the ordered list of externally visible actions it performs (KvStore
writes, config-store persistence, throttle scheduling, queue pushes and
fulfilling the response promise). -/

/-- Tracked interface (the part of `InterfaceEntry` the claims use):
`networks` are the global unicast addresses as raw prefix entries. -/
structure InterfaceEntry where
  ifName : String
  isActive : Bool
  networks : List PrefixEntry

deriving DecidableEq

/-- One configured area: its id and (as an abstraction of the configured
regexes) the set of interface names eligible for redistribution. -/
structure AreaConfig where
  areaId : String
  redistIfNames : List String

deriving DecidableEq

def AreaConfig.shouldRedistributeIface (conf : AreaConfig) (ifName : String) : Bool :=
  conf.redistIfNames.contains ifName

deriving instance DecidableEq for Except

/-- Externally visible actions of a LinkMonitor routine, in program
order. -/
inductive LmAction where
  | kvPersistAdjKey (area : String) (db : AdjacencyDatabase)
  | persistState (st : LinkMonitorState)
  | scheduleThrottle
  | pushPrefixUpdate (area : String) (prefixes : List PrefixEntry)
  | respond (r : Except String Unit)

deriving DecidableEq

/-- The LinkMonitor component state a command run reads. -/
structure LinkMonitorCtx where
  nodeId : String
  enableSegmentRouting : Bool
  areas : List AreaConfig
  interfaces : List InterfaceEntry
  adjacencies : List (AdjacencyKey × AdjacencyValue)
  holdTimerScheduled : Bool
  state : LinkMonitorState
  prefixForwardingType : PrefixForwardingType
  prefixForwardingAlgorithm : PrefixForwardingAlgorithm

deriving DecidableEq

/-- `LinkMonitor::advertiseAdjacencies(area)`: no-op while the startup
hold timer is scheduled; otherwise write `adj:<nodeId>` into KvStore for
the area and persist the current LinkMonitorState to the config store. -/
def advertiseAdjacenciesArea (ctx : LinkMonitorCtx) (area : String) : List LmAction :=
  if ctx.holdTimerScheduled then []
  else
    [LmAction.kvPersistAdjKey area
      (buildAdjacencyDatabase ctx.nodeId ctx.enableSegmentRouting ctx.state
        ctx.adjacencies area),
     LmAction.persistState ctx.state]

/-- `LinkMonitor::advertiseAdjacencies()`: advertise to every area. -/
def advertiseAdjacenciesAll (ctx : LinkMonitorCtx) : List LmAction :=
  (ctx.areas.map (fun conf => advertiseAdjacenciesArea ctx conf.areaId)).flatten

/-- Transformation applied in `advertiseRedistAddrs` to each global
unicast prefix of an active interface. -/
def redistPrefixEntry (nodeId : String) (pft : PrefixForwardingType)
    (pfa : PrefixForwardingAlgorithm) (ifName : String) (pfe : PrefixEntry) :
    PrefixEntry :=
  { pfe with
    forwardingType := pft
    forwardingAlgorithm := pfa
    tags := pfe.tags ++ ["INTERFACE_SUBNET", nodeId ++ ":" ++ ifName]
    metrics :=
      { pfe.metrics with
        path_preference := kDefaultPathPreference
        source_preference := kDefaultSourcePreference } }

/-- Redistributable prefixes collected for one area: those of active
interfaces matching the area redistribution config. -/
def areaRedistPrefixes (ctx : LinkMonitorCtx) (conf : AreaConfig) : List PrefixEntry :=
  ((ctx.interfaces.filter
      (fun i => i.isActive && conf.shouldRedistributeIface i.ifName)).map
    (fun i => i.networks.map
      (redistPrefixEntry ctx.nodeId ctx.prefixForwardingType
        ctx.prefixForwardingAlgorithm i.ifName))).flatten

/-- `LinkMonitor::advertiseRedistAddrs`: no-op while the startup hold
timer is scheduled; otherwise push one SYNC_PREFIXES_BY_TYPE prefix
update per area (possibly with an empty prefix list). -/
def advertiseRedistAddrs (ctx : LinkMonitorCtx) : List LmAction :=
  if ctx.holdTimerScheduled then []
  else
    ctx.areas.map
      (fun conf => LmAction.pushPrefixUpdate conf.areaId (areaRedistPrefixes ctx conf))

/-- `interfaces_.count(interfaceName)` as a Bool. -/
def interfaceKnown (ctx : LinkMonitorCtx) (interfaceName : String) : Bool :=
  ctx.interfaces.any (fun i => i.ifName = interfaceName)

/-- `adjacencies_.count(make_pair(adjNodeName, interfaceName))` as a Bool. -/
def adjacencyKnown (ctx : LinkMonitorCtx) (adjNodeName interfaceName : String) : Bool :=
  (alistLookup ctx.adjacencies
    { nodeName := adjNodeName, ifName := interfaceName }).isSome

/-- `LinkMonitor::setNodeOverload`: on a real change flip the overload
bit and advertise adjacencies immediately (synchronously); always fulfil
the promise with success. -/
def setNodeOverload (ctx : LinkMonitorCtx) (isOverloaded : Bool) :
    LinkMonitorState × List LmAction :=
  if ctx.state.isOverloaded = isOverloaded then
    (ctx.state, [LmAction.respond (Except.ok ())])
  else
    ({ ctx.state with isOverloaded := isOverloaded },
      advertiseAdjacenciesAll
          { ctx with state := { ctx.state with isOverloaded := isOverloaded } } ++
        [LmAction.respond (Except.ok ())])

/-- `LinkMonitor::setInterfaceOverload`: unknown interface or no-op
requests are skipped (success response, nothing else); a real change
updates `overloadedLinks` and schedules the throttled advertiser. -/
def setInterfaceOverload (ctx : LinkMonitorCtx) (interfaceName : String)
    (isOverloaded : Bool) : LinkMonitorState × List LmAction :=
  if !interfaceKnown ctx interfaceName then
    (ctx.state, [LmAction.respond (Except.ok ())])
  else if isOverloaded && ctx.state.overloadedLinks.contains interfaceName then
    (ctx.state, [LmAction.respond (Except.ok ())])
  else if !isOverloaded && !ctx.state.overloadedLinks.contains interfaceName then
    (ctx.state, [LmAction.respond (Except.ok ())])
  else
    ((if isOverloaded then
        { ctx.state with overloadedLinks := ctx.state.overloadedLinks.insert interfaceName }
      else
        { ctx.state with overloadedLinks := ctx.state.overloadedLinks.erase interfaceName }),
     [LmAction.scheduleThrottle, LmAction.respond (Except.ok ())])

/-- `LinkMonitor::setLinkMetric`: unknown interface or no-op requests
are skipped; a real change updates `linkMetricOverrides` and schedules
the throttled advertiser. -/
def setLinkMetric (ctx : LinkMonitorCtx) (interfaceName : String)
    (overrideMetric : Option Int) : LinkMonitorState × List LmAction :=
  if !interfaceKnown ctx interfaceName then
    (ctx.state, [LmAction.respond (Except.ok ())])
  else
    match overrideMetric with
    | some m =>
      if alistLookup ctx.state.linkMetricOverrides interfaceName = some m then
        (ctx.state, [LmAction.respond (Except.ok ())])
      else
        ({ ctx.state with
            linkMetricOverrides := alistInsert ctx.state.linkMetricOverrides interfaceName m },
         [LmAction.scheduleThrottle, LmAction.respond (Except.ok ())])
    | none =>
      if alistLookup ctx.state.linkMetricOverrides interfaceName = none then
        (ctx.state, [LmAction.respond (Except.ok ())])
      else
        ({ ctx.state with
            linkMetricOverrides := alistErase ctx.state.linkMetricOverrides interfaceName },
         [LmAction.scheduleThrottle, LmAction.respond (Except.ok ())])

/-- `LinkMonitor::setAdjacencyMetric`: unknown adjacency or no-op
requests are skipped; a real change updates `adjMetricOverrides` and
schedules the throttled advertiser. -/
def setAdjacencyMetric (ctx : LinkMonitorCtx) (interfaceName adjNodeName : String)
    (overrideMetric : Option Int) : LinkMonitorState × List LmAction :=
  if !adjacencyKnown ctx adjNodeName interfaceName then
    (ctx.state, [LmAction.respond (Except.ok ())])
  else
    match overrideMetric with
    | some m =>
      if alistLookup ctx.state.adjMetricOverrides
          { nodeName := adjNodeName, ifName := interfaceName } = some m then
        (ctx.state, [LmAction.respond (Except.ok ())])
      else
        ({ ctx.state with
            adjMetricOverrides := alistInsert ctx.state.adjMetricOverrides
              { nodeName := adjNodeName, ifName := interfaceName } m },
         [LmAction.scheduleThrottle, LmAction.respond (Except.ok ())])
    | none =>
      if alistLookup ctx.state.adjMetricOverrides
          { nodeName := adjNodeName, ifName := interfaceName } = none then
        (ctx.state, [LmAction.respond (Except.ok ())])
      else
        ({ ctx.state with
            adjMetricOverrides := alistErase ctx.state.adjMetricOverrides
              { nodeName := adjNodeName, ifName := interfaceName } },
         [LmAction.scheduleThrottle, LmAction.respond (Except.ok ())])

/-- Does a trace contain a structured-error response? -/
def isErrorRespond : LmAction → Bool
  | LmAction.respond (Except.error _) => true
  | _ => false

/-- Does a trace element write the adjacency key into KvStore? -/
def isKvWrite : LmAction → Bool
  | LmAction.kvPersistAdjKey _ _ => true
  | _ => false

/-- Does a trace element persist LinkMonitorState to the config store? -/
def isPersist : LmAction → Bool
  | LmAction.persistState _ => true
  | _ => false

/-! ## Example data used by witnesses -/

def exPeerSpec : PeerSpec :=
  { cmdUrl := "tcp-b", peerAddr := "fe80-b", ctrlPort := 2018 }

def exAdjacencyB : Adjacency :=
  neighborUpAdjacency true true "nodeB" "eth0" "fe80-b" "10-b" 100 250 7 1 "eth9"

def exAdjacencies : List (AdjacencyKey × AdjacencyValue) :=
  [({ nodeName := "nodeB", ifName := "eth0" },
    { area := "area0", peerSpec := exPeerSpec, adjacency := exAdjacencyB,
      isRestarting := false })]

def exState : LinkMonitorState :=
  { isOverloaded := false
    overloadedLinks := []
    nodeLabel := 1
    linkMetricOverrides := [("eth0", 7)]
    adjMetricOverrides := [] }

def exCtx : LinkMonitorCtx :=
  { nodeId := "nodeA"
    enableSegmentRouting := true
    areas := [{ areaId := "area0", redistIfNames := ["lo0"] }]
    interfaces := [{ ifName := "eth0", isActive := true, networks := [] }]
    adjacencies := exAdjacencies
    holdTimerScheduled := false
    state := exState
    prefixForwardingType := PrefixForwardingType.IP
    prefixForwardingAlgorithm := PrefixForwardingAlgorithm.SP_ECMP }

def exCtxUnknown : LinkMonitorCtx :=
  { exCtx with interfaces := [], adjacencies := [] }

def exCtxHold : LinkMonitorCtx :=
  { exCtx with holdTimerScheduled := true }

def exPhpNextHop : NextHopThrift :=
  { address := "fe80-1"
    ifName := some "eth1"
    metric := 10
    mplsAction := some { action := MplsActionCode.PHP, swapLabel := none, pushLabels := none } }

def exSwapNextHop : NextHopThrift :=
  { address := "fe80-2"
    ifName := some "eth2"
    metric := 20
    mplsAction := some { action := MplsActionCode.SWAP, swapLabel := some 100, pushLabels := none } }

def exMplsNextHops : List NextHopThrift := [exPhpNextHop, exSwapNextHop]

/-! ## Best-prefix selection by PrefixMetrics (selectBestPrefixMetrics) -/

/-- `std::numeric_limits<int32_t>::min()`. -/
def int32Min : Int := -(2 ^ 31)

/-- The comparison tuple built in `selectBestPrefixMetrics`:
(path-preference, source-preference, distance * -1), the first two
preferring higher and the last preferring lower. -/
def metricsTuple (m : PrefixMetrics) : Int × Int × Int :=
  (m.path_preference, m.source_preference, m.distance * -1)

/-- Lexicographic strict order on the comparison triples, as
`std::tuple::operator<`. -/
def tupLt (a b : Int × Int × Int) : Prop :=
  a.1 < b.1 ∨ (a.1 = b.1 ∧ (a.2.1 < b.2.1 ∨ (a.2.1 = b.2.1 ∧ a.2.2 < b.2.2)))

instance tupLtDecidable (a b : Int × Int × Int) : Decidable (tupLt a b) := by
  unfold tupLt
  infer_instance

def tupLe (a b : Int × Int × Int) : Prop :=
  ¬ tupLt b a

instance tupLeDecidable (a b : Int × Int × Int) : Decidable (tupLe a b) := by
  unfold tupLe
  infer_instance

def tupMax (a b : Int × Int × Int) : Int × Int × Int :=
  if tupLt a b then b else a

/-- Loop body of `selectBestPrefixMetrics`: skip entries below the best
tuple seen so far, reset the key set on a strictly better tuple, and add
the key of any entry matching the best tuple. -/
def selectBestStep {Key : Type} (acc : (Int × Int × Int) × List Key)
    (e : Key × PrefixEntry) : (Int × Int × Int) × List Key :=
  if tupLt (metricsTuple e.2.metrics) acc.1 then acc
  else if tupLt acc.1 (metricsTuple e.2.metrics) then
    (metricsTuple e.2.metrics, [e.1])
  else
    (acc.1, acc.2 ++ [e.1])

/-- `selectBestPrefixMetrics`: fold over the prefix map starting from
the int32-minimum triple and an empty key set. -/
def selectBestPrefixMetrics {Key : Type} (prefixes : List (Key × PrefixEntry)) :
    List Key :=
  (prefixes.foldl selectBestStep ((int32Min, int32Min, int32Min), [])).2

/-- Running maximum of the comparison triples over a list of entries. -/
def runningMax {Key : Type} (b : Int × Int × Int)
    (l : List (Key × PrefixEntry)) : Int × Int × Int :=
  l.foldl (fun acc e => tupMax acc (metricsTuple e.2.metrics)) b

def exPrefixEntry1 : PrefixEntry :=
  { network := "p1"
    forwardingType := PrefixForwardingType.IP
    forwardingAlgorithm := PrefixForwardingAlgorithm.SP_ECMP
    tags := []
    metrics := { path_preference := 1000, source_preference := 200, distance := 2 } }

def exPrefixEntry2 : PrefixEntry :=
  { exPrefixEntry1 with
    network := "p2"
    metrics := { path_preference := 1000, source_preference := 200, distance := 2 } }

def exPrefixEntry3 : PrefixEntry :=
  { exPrefixEntry1 with
    network := "p3"
    metrics := { path_preference := 1000, source_preference := 200, distance := 5 } }

def exPrefixes : List (String × PrefixEntry) :=
  [("k1", exPrefixEntry1), ("k2", exPrefixEntry2), ("k3", exPrefixEntry3)]

/-! ## KV peer derivation (getPeersFromAdjacencies) -/

/-- Minimum of two optional interface names (none = no candidate). -/
def optMin : Option String → Option String → Option String
  | none, b => b
  | some a, none => some a
  | some a, some b => some (min a b)

/-- Loop body of `getPeersFromAdjacencies`: skip adjacencies of another
area or restarting ones; otherwise record the interface for the node,
keeping the smaller interface name if one is already recorded. -/
def peerStep (area : String) (m : List (String × String))
    (e : AdjacencyKey × AdjacencyValue) : List (String × String) :=
  if e.2.area ≠ area ∨ e.2.isRestarting = true then m
  else
    match alistLookup m e.1.nodeName with
    | none => m ++ [(e.1.nodeName, e.1.ifName)]
    | some i =>
      if e.1.ifName < i then alistUpdate m e.1.nodeName e.1.ifName else m

/-- The neighbor-to-minimum-interface map built by the first loop of
`getPeersFromAdjacencies`. -/
def neighborToIface (adjacencies : List (AdjacencyKey × AdjacencyValue))
    (area : String) : List (String × String) :=
  adjacencies.foldl (peerStep area) []

/-- `LinkMonitor::getPeersFromAdjacencies`: one peer per remote node,
whose spec is that of the adjacency stored under the selected minimum
interface (`adjacencies.at(...)` modelled as the lookup). -/
def getPeersFromAdjacencies (adjacencies : List (AdjacencyKey × AdjacencyValue))
    (area : String) : List (String × PeerSpec) :=
  (neighborToIface adjacencies area).filterMap
    (fun p =>
      (alistLookup adjacencies { nodeName := p.1, ifName := p.2 }).map
        (fun v => (p.1, v.peerSpec)))

/-- An adjacency entry that makes its node eligible as a KV peer of the
area: right area and not restarting. -/
def isPeerCandidate (area n : String) (e : AdjacencyKey × AdjacencyValue) : Prop :=
  e.1.nodeName = n ∧ e.2.area = area ∧ e.2.isRestarting = false

instance isPeerCandidateDecidable (area n : String)
    (e : AdjacencyKey × AdjacencyValue) : Decidable (isPeerCandidate area n e) := by
  unfold isPeerCandidate
  infer_instance

/-- Minimum local interface name over the peer-candidate adjacencies of
node `n` in `area`. -/
def minMatchingIface (area n : String) :
    List (AdjacencyKey × AdjacencyValue) → Option String
  | [] => none
  | e :: rest =>
    if isPeerCandidate area n e then
      optMin (some e.1.ifName) (minMatchingIface area n rest)
    else
      minMatchingIface area n rest

def exSpecB1 : PeerSpec := { cmdUrl := "u-b1", peerAddr := "a-b1", ctrlPort := 1 }

def exSpecB2 : PeerSpec := { cmdUrl := "u-b2", peerAddr := "a-b2", ctrlPort := 2 }

def exSpecC : PeerSpec := { cmdUrl := "u-c", peerAddr := "a-c", ctrlPort := 3 }

def exSpecB0 : PeerSpec := { cmdUrl := "u-b0", peerAddr := "a-b0", ctrlPort := 0 }

/-- Parallel links to nodeB on eth1/eth2 in area0, a restarting
adjacency to nodeC, and a nodeB adjacency in another area. -/
def exPeerAdjacencies : List (AdjacencyKey × AdjacencyValue) :=
  [({ nodeName := "nodeB", ifName := "eth2" },
    { area := "area0", peerSpec := exSpecB2,
      adjacency := neighborUpAdjacency false false "nodeB" "eth2" "v6-b2" "v4-b2"
        0 0 12 1 "r2",
      isRestarting := false }),
   ({ nodeName := "nodeB", ifName := "eth1" },
    { area := "area0", peerSpec := exSpecB1,
      adjacency := neighborUpAdjacency false false "nodeB" "eth1" "v6-b1" "v4-b1"
        0 0 11 1 "r1",
      isRestarting := false }),
   ({ nodeName := "nodeC", ifName := "eth3" },
    { area := "area0", peerSpec := exSpecC,
      adjacency := neighborUpAdjacency false false "nodeC" "eth3" "v6-c" "v4-c"
        0 0 13 1 "r3",
      isRestarting := true }),
   ({ nodeName := "nodeB", ifName := "eth0" },
    { area := "area1", peerSpec := exSpecB0,
      adjacency := neighborUpAdjacency false false "nodeB" "eth0" "v6-b0" "v4-b0"
        0 0 10 1 "r0",
      isRestarting := false })]

/-! ## Association list kit (model of std::unordered_map) -/

theorem alistLookup_append {α β : Type} [DecidableEq α]
    (l₁ l₂ : List (α × β)) (a : α) :
    alistLookup (l₁ ++ l₂) a =
      match alistLookup l₁ a with
      | some v => some v
      | none => alistLookup l₂ a := by
  induction l₁ with
  | nil => simp [alistLookup]
  | cons p rest ih =>
    obtain ⟨k, v⟩ := p
    by_cases h : k = a <;> simp [alistLookup, h, ih]

theorem alistLookup_update_self {α β : Type} [DecidableEq α]
    (l : List (α × β)) (a : α) (b : β) (h : (alistLookup l a).isSome) :
    alistLookup (alistUpdate l a b) a = some b := by
  induction l with
  | nil => simp [alistLookup] at h
  | cons p rest ih =>
    obtain ⟨k, v⟩ := p
    by_cases hk : k = a
    · simp [alistLookup, alistUpdate, hk]
    · simp [alistLookup, alistUpdate, hk] at h ⊢
      exact ih h

theorem alistLookup_update_other {α β : Type} [DecidableEq α]
    (l : List (α × β)) (a x : α) (b : β) (h : x ≠ a) :
    alistLookup (alistUpdate l a b) x = alistLookup l x := by
  induction l with
  | nil => simp [alistUpdate]
  | cons p rest ih =>
    obtain ⟨k, v⟩ := p
    by_cases hk : k = a
    · subst hk
      simp [alistLookup, alistUpdate, Ne.symm h]
    · simp only [alistUpdate, hk, if_false]
      by_cases hx : k = x <;> simp [alistLookup, hx, ih]

theorem alistUpdate_of_lookup_none {α β : Type} [DecidableEq α]
    (l : List (α × β)) (a : α) (b : β) (h : alistLookup l a = none) :
    alistUpdate l a b = l := by
  induction l with
  | nil => rfl
  | cons p rest ih =>
    obtain ⟨k, v⟩ := p
    by_cases hk : k = a
    · simp [alistLookup, hk] at h
    · simp [alistLookup, hk] at h
      simp [alistUpdate, hk, ih h]

theorem alistUpdate_keys {α β : Type} [DecidableEq α]
    (l : List (α × β)) (a : α) (b : β) :
    (alistUpdate l a b).map Prod.fst = l.map Prod.fst := by
  induction l with
  | nil => rfl
  | cons p rest ih =>
    obtain ⟨k, v⟩ := p
    by_cases hk : k = a <;> simp [alistUpdate, hk, ih]

theorem alistLookup_isSome_iff_mem_keys {α β : Type} [DecidableEq α]
    (l : List (α × β)) (a : α) :
    (alistLookup l a).isSome ↔ a ∈ l.map Prod.fst := by
  induction l with
  | nil => simp [alistLookup]
  | cons p rest ih =>
    obtain ⟨k, v⟩ := p
    by_cases hk : k = a
    · subst hk
      simp [alistLookup]
    · simp [alistLookup, hk, ih, Ne.symm hk]

theorem alistLookup_eq_none_iff_not_mem_keys {α β : Type} [DecidableEq α]
    (l : List (α × β)) (a : α) :
    alistLookup l a = none ↔ a ∉ l.map Prod.fst := by
  rw [← alistLookup_isSome_iff_mem_keys]
  cases alistLookup l a <;> simp

theorem alistLookup_of_mem_nodup {α β : Type} [DecidableEq α]
    (l : List (α × β)) (e : α × β) (hnd : (l.map Prod.fst).Nodup)
    (hmem : e ∈ l) : alistLookup l e.1 = some e.2 := by
  induction l with
  | nil => simp at hmem
  | cons p rest ih =>
    simp only [List.map_cons, List.nodup_cons] at hnd
    rcases List.mem_cons.mp hmem with h | h
    · subst h
      simp [alistLookup]
    · obtain ⟨k, v⟩ := p
      have hk : k ≠ e.1 := by
        intro hk
        exact hnd.1 (hk ▸ (List.mem_map.mpr ⟨e, h, rfl⟩))
      simp only [alistLookup, hk, if_false]
      exact ih hnd.2 h

theorem alistLookup_mem {α β : Type} [DecidableEq α]
    (l : List (α × β)) (a : α) (b : β) (h : alistLookup l a = some b) :
    (a, b) ∈ l := by
  induction l with
  | nil => simp [alistLookup] at h
  | cons p rest ih =>
    obtain ⟨k, v⟩ := p
    by_cases hk : k = a
    · subst hk
      simp [alistLookup] at h
      simp [h]
    · simp [alistLookup, hk] at h
      exact List.mem_cons_of_mem _ (ih h)

/-! ## Claim theorems: startup state (C9, C10) -/

/-- Claim C9 counterexample: with `overrideDrainState = true` a
successfully loaded persisted state does not become the initial state;
the loaded overload value (true) is replaced by `assumeDrained`
(false), so the claim as stated fails. -/
theorem C9_loaded_state_counterexample :
    initialLinkMonitorState
        (some { defaultLinkMonitorState with isOverloaded := true }) false true ≠
      { defaultLinkMonitorState with isOverloaded := true } := by
  decide

/-- Claim C9 (amended): at startup, if no persisted LinkMonitorState is
loaded from the config store, the initial isOverloaded field is the
`assumeDrained` flag (whatever `overrideDrainState` is); if a persisted
state is loaded successfully and `overrideDrainState` is false, the
loaded state becomes the initial state unchanged. -/
theorem C9_initial_state :
    (∀ (assumeDrained overrideDrainState : Bool),
      (initialLinkMonitorState none assumeDrained overrideDrainState).isOverloaded =
        assumeDrained) ∧
    (∀ (s : LinkMonitorState) (assumeDrained : Bool),
      initialLinkMonitorState (some s) assumeDrained false = s) := by
  refine ⟨fun a o => ?_, fun s a => rfl⟩
  cases o <;> rfl

/-- Claim C10: when `overrideDrainState` is true, the constructor forces
`isOverloaded` to the `assumeDrained` flag even when a persisted state
was loaded, keeping every other loaded field. -/
theorem C10_override_drain_state :
    ∀ (s : LinkMonitorState) (assumeDrained : Bool),
      initialLinkMonitorState (some s) assumeDrained true =
        { s with isOverloaded := assumeDrained } :=
  fun _ _ => rfl

/-! ## Claim theorems: metric pipeline (C2) -/

/-- Claim C2: every adjacency in a built AdjacencyDatabase carries the
adjacency-metric override for (remote-node, local-if) when present, else
the link-metric override for the interface when present, else the stored
base metric; and the base metric set on neighbor-up is
max(1, rttUs / 100) under use-rtt-metric and 1 otherwise, hence never
zero. -/
theorem C2_advertised_metric (nodeId : String) (enableSegmentRouting : Bool)
    (state : LinkMonitorState)
    (adjacencies : List (AdjacencyKey × AdjacencyValue)) (area : String)
    (a : Adjacency)
    (ha : a ∈ (buildAdjacencyDatabase nodeId enableSegmentRouting state
      adjacencies area).adjacencies)
    (useRttMetric : Bool) (rttUs : Nat)
    (remoteNodeName localIfName nextHopV6 nextHopV4 remoteIfName : String)
    (label timestamp weight : Int) :
    (∃ e ∈ adjacencies, e.2.area = area ∧
      a.metric =
        match alistLookup state.adjMetricOverrides
            { nodeName := e.2.adjacency.otherNodeName,
              ifName := e.2.adjacency.ifName } with
        | some m => m
        | none =>
          match alistLookup state.linkMetricOverrides e.2.adjacency.ifName with
          | some m => m
          | none => e.2.adjacency.metric) ∧
    (neighborUpAdjacency useRttMetric enableSegmentRouting remoteNodeName
        localIfName nextHopV6 nextHopV4 label rttUs timestamp weight
        remoteIfName).metric =
      (if useRttMetric then max 1 ((rttUs / 100 : Nat) : Int) else 1) ∧
    0 < (neighborUpAdjacency useRttMetric enableSegmentRouting remoteNodeName
        localIfName nextHopV6 nextHopV4 label rttUs timestamp weight
        remoteIfName).metric := by
  refine ⟨?_, ?_, ?_⟩
  · simp only [buildAdjacencyDatabase, List.mem_map] at ha
    obtain ⟨e, hef, rfl⟩ := ha
    rw [List.mem_filter] at hef
    obtain ⟨hmem, harea⟩ := hef
    refine ⟨e, hmem, by simpa using harea, ?_⟩
    simp only [overrideAdjacency]
    cases h1 : alistLookup state.adjMetricOverrides
        { nodeName := e.2.adjacency.otherNodeName, ifName := e.2.adjacency.ifName } <;>
      cases h2 : alistLookup state.linkMetricOverrides e.2.adjacency.ifName <;>
        simp [h1, h2]
  · cases useRttMetric <;> simp [neighborUpAdjacency, getRttMetric, max_comm]
  · cases useRttMetric
    · simp [neighborUpAdjacency]
    · simp only [neighborUpAdjacency, getRttMetric, if_true]
      exact lt_of_lt_of_le one_pos (le_max_right _ _)

/-! ## Claim theorems: MPLS PHP preference (C4) -/

/-- Claim C4: selectMplsNextHops returns a subset of the given next-hops
whose members all carry the same MPLS action code; whenever a PHP
next-hop is present the result is exactly the PHP next-hops and every
SWAP next-hop is dropped. -/
theorem C4_select_mpls_next_hops (nextHops : List NextHopThrift) :
    (∀ nh ∈ selectMplsNextHops nextHops, nh ∈ nextHops) ∧
    (∀ a ∈ selectMplsNextHops nextHops, ∀ b ∈ selectMplsNextHops nextHops,
      actionCodeOf a = actionCodeOf b) ∧
    ((∃ nh ∈ nextHops, nextHopHasAction MplsActionCode.PHP nh) →
      selectMplsNextHops nextHops =
        nextHops.filter (nextHopHasAction MplsActionCode.PHP) ∧
      ∀ nh ∈ selectMplsNextHops nextHops,
        nextHopHasAction MplsActionCode.SWAP nh = false) := by
  have hact : ∀ (code : MplsActionCode) (nh : NextHopThrift),
      nextHopHasAction code nh = true → actionCodeOf nh = some code := by
    intro code nh h
    cases hma : nh.mplsAction with
    | none => simp [nextHopHasAction, hma] at h
    | some act =>
      simp [nextHopHasAction, hma] at h
      simp [actionCodeOf, hma, h]
  refine ⟨?_, ?_, ?_⟩
  · intro nh hnh
    unfold selectMplsNextHops at hnh
    split at hnh <;> exact (List.mem_filter.mp hnh).1
  · intro a ha b hb
    unfold selectMplsNextHops at ha hb
    by_cases hc : nextHops.any (nextHopHasAction MplsActionCode.PHP) = true
    · rw [if_pos hc] at ha hb
      rw [hact _ _ (List.mem_filter.mp ha).2, hact _ _ (List.mem_filter.mp hb).2]
    · rw [if_neg hc] at ha hb
      rw [hact _ _ (List.mem_filter.mp ha).2, hact _ _ (List.mem_filter.mp hb).2]
  · intro hphp
    have hany : nextHops.any (nextHopHasAction MplsActionCode.PHP) = true := by
      rw [List.any_eq_true]
      obtain ⟨nh, hmem, hnh⟩ := hphp
      exact ⟨nh, hmem, hnh⟩
    constructor
    · simp [selectMplsNextHops, hany]
    · intro nh hnh
      simp only [selectMplsNextHops, hany, if_true] at hnh
      have hcode := hact _ _ (List.mem_filter.mp hnh).2
      cases hma : nh.mplsAction with
      | none => simp [nextHopHasAction, hma]
      | some act =>
        simp [actionCodeOf, hma] at hcode
        simp [nextHopHasAction, hma, hcode]

/-! ## Example data used by witnesses -/

/-- Claim C2 witness at a concrete adjacency with a link-metric
override. -/
theorem C2_advertised_metric_witness :
    overrideAdjacency exState exAdjacencyB ∈
      (buildAdjacencyDatabase "nodeA" true exState exAdjacencies "area0").adjacencies ∧
    ((∃ e ∈ exAdjacencies, e.2.area = "area0" ∧
      (overrideAdjacency exState exAdjacencyB).metric =
        match alistLookup exState.adjMetricOverrides
            { nodeName := e.2.adjacency.otherNodeName,
              ifName := e.2.adjacency.ifName } with
        | some m => m
        | none =>
          match alistLookup exState.linkMetricOverrides e.2.adjacency.ifName with
          | some m => m
          | none => e.2.adjacency.metric) ∧
    (neighborUpAdjacency true true "nodeB" "eth0" "fe80-b" "10-b" 100 250 7 1
        "eth9").metric =
      (if (true : Bool) then max 1 ((250 / 100 : Nat) : Int) else 1) ∧
    0 < (neighborUpAdjacency true true "nodeB" "eth0" "fe80-b" "10-b" 100 250 7 1
        "eth9").metric) :=
  ⟨by decide,
   C2_advertised_metric "nodeA" true exState exAdjacencies "area0"
     (overrideAdjacency exState exAdjacencyB) (by decide) true 250 "nodeB" "eth0"
     "fe80-b" "10-b" "eth9" 100 7 1⟩

/-- Claim C4 witness on the spec scenario: next-hop set with one PHP and
one SWAP next-hop. -/
theorem C4_select_mpls_next_hops_witness :
    (∀ nh ∈ selectMplsNextHops exMplsNextHops, nh ∈ exMplsNextHops) ∧
    (∀ a ∈ selectMplsNextHops exMplsNextHops, ∀ b ∈ selectMplsNextHops exMplsNextHops,
      actionCodeOf a = actionCodeOf b) ∧
    ((∃ nh ∈ exMplsNextHops, nextHopHasAction MplsActionCode.PHP nh) →
      selectMplsNextHops exMplsNextHops =
        exMplsNextHops.filter (nextHopHasAction MplsActionCode.PHP) ∧
      ∀ nh ∈ selectMplsNextHops exMplsNextHops,
        nextHopHasAction MplsActionCode.SWAP nh = false) :=
  C4_select_mpls_next_hops exMplsNextHops

/-! ## Claim theorems: drain commands (C5, C6, C7) -/

/-- Claim C5 counterexample: on an unknown interface or adjacency the
commands do not return a structured error — each fulfils its response
promise with success (the error is only logged). -/
theorem C5_unknown_target_counterexample :
    (setInterfaceOverload exCtxUnknown "eth0" true).2.any isErrorRespond = false ∧
    (setLinkMetric exCtxUnknown "eth0" (some 10)).2.any isErrorRespond = false ∧
    (setAdjacencyMetric exCtxUnknown "eth0" "nodeB" (some 10)).2.any isErrorRespond
      = false ∧
    (setInterfaceOverload exCtxUnknown "eth0" true).2 =
      [LmAction.respond (Except.ok ())] := by
  decide

/-- Claim C5 (amended): a command naming an unknown interface (or, for
setAdjacencyMetric, an unknown adjacency) does not mutate
LinkMonitorState and triggers no re-advertisement, but it responds with
success rather than a structured error: the whole run is the successful
response. -/
theorem C5_unknown_target_skips (ctx : LinkMonitorCtx)
    (interfaceName adjNodeName : String) (isOverloaded : Bool) (m : Option Int)
    (hif : interfaceKnown ctx interfaceName = false)
    (hadj : adjacencyKnown ctx adjNodeName interfaceName = false) :
    setInterfaceOverload ctx interfaceName isOverloaded =
      (ctx.state, [LmAction.respond (Except.ok ())]) ∧
    setLinkMetric ctx interfaceName m =
      (ctx.state, [LmAction.respond (Except.ok ())]) ∧
    setAdjacencyMetric ctx interfaceName adjNodeName m =
      (ctx.state, [LmAction.respond (Except.ok ())]) := by
  refine ⟨?_, ?_, ?_⟩
  · simp [setInterfaceOverload, hif]
  · simp [setLinkMetric, hif]
  · simp [setAdjacencyMetric, hadj]

/-- Claim C5 witness: concrete context with no tracked interfaces or
adjacencies. -/
theorem C5_unknown_target_skips_witness :
    interfaceKnown exCtxUnknown "eth0" = false ∧
    adjacencyKnown exCtxUnknown "nodeB" "eth0" = false ∧
    (setInterfaceOverload exCtxUnknown "eth0" true =
      (exCtxUnknown.state, [LmAction.respond (Except.ok ())]) ∧
    setLinkMetric exCtxUnknown "eth0" (some 10) =
      (exCtxUnknown.state, [LmAction.respond (Except.ok ())]) ∧
    setAdjacencyMetric exCtxUnknown "eth0" "nodeB" (some 10) =
      (exCtxUnknown.state, [LmAction.respond (Except.ok ())])) :=
  ⟨by decide, by decide,
   C5_unknown_target_skips exCtxUnknown "eth0" "nodeB" true (some 10)
     (by decide) (by decide)⟩

/-- Every action of a full adjacency advertisement is a KvStore write or
a state persistence. -/
theorem mem_advertiseAdjacenciesAll {ctx : LinkMonitorCtx} {a : LmAction}
    (ha : a ∈ advertiseAdjacenciesAll ctx) :
    isKvWrite a = true ∨ isPersist a = true := by
  unfold advertiseAdjacenciesAll at ha
  rw [List.mem_flatten] at ha
  obtain ⟨l, hl, hal⟩ := ha
  rw [List.mem_map] at hl
  obtain ⟨conf, hconf, rfl⟩ := hl
  unfold advertiseAdjacenciesArea at hal
  split at hal
  · simp at hal
  · simp at hal
    rcases hal with rfl | rfl
    · exact Or.inl rfl
    · exact Or.inr rfl

/-- Claim C6: a drain command that changes state triggers
re-advertisement; for setNodeOverload it is immediate (synchronous
KvStore writes inside the command, no throttle request), for
setInterfaceOverload, setLinkMetric and setAdjacencyMetric it goes
through the throttled advertiser (a throttle request and no synchronous
KvStore write). -/
theorem C6_readvertisement (ctx : LinkMonitorCtx)
    (hhold : ctx.holdTimerScheduled = false) (hareas : ctx.areas ≠ [])
    (isOverloaded : Bool) (interfaceName adjNodeName : String) (m : Option Int) :
    (∀ st tr, setNodeOverload ctx isOverloaded = (st, tr) → st ≠ ctx.state →
      tr.any isKvWrite = true ∧ LmAction.scheduleThrottle ∉ tr) ∧
    (∀ st tr, setInterfaceOverload ctx interfaceName isOverloaded = (st, tr) →
      st ≠ ctx.state →
      LmAction.scheduleThrottle ∈ tr ∧ tr.any isKvWrite = false) ∧
    (∀ st tr, setLinkMetric ctx interfaceName m = (st, tr) → st ≠ ctx.state →
      LmAction.scheduleThrottle ∈ tr ∧ tr.any isKvWrite = false) ∧
    (∀ st tr, setAdjacencyMetric ctx interfaceName adjNodeName m = (st, tr) →
      st ≠ ctx.state →
      LmAction.scheduleThrottle ∈ tr ∧ tr.any isKvWrite = false) := by
  refine ⟨?_, ?_, ?_, ?_⟩
  · intro st tr h hne
    unfold setNodeOverload at h
    split at h
    · injection h with h1 h2
      subst h1
      exact absurd rfl hne
    · injection h with h1 h2
      subst h1
      subst h2
      obtain ⟨c, rest, hc⟩ := List.exists_cons_of_ne_nil hareas
      constructor
      · rw [List.any_append, Bool.or_eq_true]
        left
        unfold advertiseAdjacenciesAll
        simp only [hc]
        simp [advertiseAdjacenciesArea, hhold, isKvWrite]
      · intro hmem
        rw [List.mem_append] at hmem
        rcases hmem with hmem | hmem
        · rcases mem_advertiseAdjacenciesAll hmem with hk | hp
          · simp [isKvWrite] at hk
          · simp [isPersist] at hp
        · simp at hmem
  · intro st tr h hne
    unfold setInterfaceOverload at h
    repeat' split at h
    all_goals injection h with h1 h2
    all_goals subst h1
    all_goals
      first
        | exact absurd rfl hne
        | (subst h2; exact ⟨by simp, rfl⟩)
  · intro st tr h hne
    unfold setLinkMetric at h
    repeat' split at h
    all_goals injection h with h1 h2
    all_goals subst h1
    all_goals
      first
        | exact absurd rfl hne
        | (subst h2; exact ⟨by simp, rfl⟩)
  · intro st tr h hne
    unfold setAdjacencyMetric at h
    repeat' split at h
    all_goals injection h with h1 h2
    all_goals subst h1
    all_goals
      first
        | exact absurd rfl hne
        | (subst h2; exact ⟨by simp, rfl⟩)

/-- Claim C6 witness: concrete context in which each command performs a
real change. -/
theorem C6_readvertisement_witness :
    (∀ st tr, setNodeOverload exCtx true = (st, tr) → st ≠ exCtx.state →
      tr.any isKvWrite = true ∧ LmAction.scheduleThrottle ∉ tr) ∧
    (∀ st tr, setInterfaceOverload exCtx "eth0" true = (st, tr) →
      st ≠ exCtx.state →
      LmAction.scheduleThrottle ∈ tr ∧ tr.any isKvWrite = false) ∧
    (∀ st tr, setLinkMetric exCtx "eth0" (some 5) = (st, tr) → st ≠ exCtx.state →
      LmAction.scheduleThrottle ∈ tr ∧ tr.any isKvWrite = false) ∧
    (∀ st tr, setAdjacencyMetric exCtx "eth0" "nodeB" (some 5) = (st, tr) →
      st ≠ exCtx.state →
      LmAction.scheduleThrottle ∈ tr ∧ tr.any isKvWrite = false) :=
  C6_readvertisement exCtx (by decide) (by decide) true "eth0" "nodeB" (some 5)

/-- Claim C7 counterexample: setLinkMetric changes LinkMonitorState yet
its run contains no config-store persistence at all — the response is
returned without the updated state having been persisted (persistence
only happens later, when the throttled advertisement fires). -/
theorem C7_persist_before_response_counterexample :
    (setLinkMetric exCtx "eth0" (some 5)).1 ≠ exCtx.state ∧
    (setLinkMetric exCtx "eth0" (some 5)).2.any isPersist = false := by
  decide

/-- Claim C7 (amended): only setNodeOverload (whose advertisement is
synchronous) persists the updated state to the config store before its
response, provided the startup hold timer is not scheduled; the three
throttled commands return their response without any persistence, and
the state is persisted when the (throttled) advertisement fires, since
every non-held advertisement persists the current state. -/
theorem C7_persistence (ctx : LinkMonitorCtx)
    (hhold : ctx.holdTimerScheduled = false) (hareas : ctx.areas ≠ [])
    (isOverloaded : Bool) (hchange : ctx.state.isOverloaded ≠ isOverloaded)
    (interfaceName adjNodeName : String) (m : Option Int) :
    (∃ tr, setNodeOverload ctx isOverloaded =
        ({ ctx.state with isOverloaded := isOverloaded },
          tr ++ [LmAction.respond (Except.ok ())]) ∧
      LmAction.persistState { ctx.state with isOverloaded := isOverloaded } ∈ tr) ∧
    (setInterfaceOverload ctx interfaceName isOverloaded).2.any isPersist = false ∧
    (setLinkMetric ctx interfaceName m).2.any isPersist = false ∧
    (setAdjacencyMetric ctx interfaceName adjNodeName m).2.any isPersist = false ∧
    (∀ ctx2 : LinkMonitorCtx, ctx2.holdTimerScheduled = false → ∀ area,
      LmAction.persistState ctx2.state ∈ advertiseAdjacenciesArea ctx2 area) := by
  refine ⟨?_, ?_, ?_, ?_, ?_⟩
  · refine ⟨advertiseAdjacenciesAll
      { ctx with state := { ctx.state with isOverloaded := isOverloaded } }, ?_, ?_⟩
    · unfold setNodeOverload
      rw [if_neg hchange]
    · obtain ⟨c, rest, hc⟩ := List.exists_cons_of_ne_nil hareas
      unfold advertiseAdjacenciesAll
      simp only [hc]
      simp [advertiseAdjacenciesArea, hhold]
  · unfold setInterfaceOverload
    repeat' split
    all_goals rfl
  · unfold setLinkMetric
    repeat' split
    all_goals rfl
  · unfold setAdjacencyMetric
    repeat' split
    all_goals rfl
  · intro ctx2 hh2 area
    unfold advertiseAdjacenciesArea
    simp [hh2]

/-- Claim C7 witness: concrete context where setNodeOverload flips the
overload bit. -/
theorem C7_persistence_witness :
    (∃ tr, setNodeOverload exCtx true =
        ({ exCtx.state with isOverloaded := true },
          tr ++ [LmAction.respond (Except.ok ())]) ∧
      LmAction.persistState { exCtx.state with isOverloaded := true } ∈ tr) ∧
    (setInterfaceOverload exCtx "eth0" true).2.any isPersist = false ∧
    (setLinkMetric exCtx "eth0" (some 5)).2.any isPersist = false ∧
    (setAdjacencyMetric exCtx "eth0" "nodeB" (some 5)).2.any isPersist = false ∧
    (∀ ctx2 : LinkMonitorCtx, ctx2.holdTimerScheduled = false → ∀ area,
      LmAction.persistState ctx2.state ∈ advertiseAdjacenciesArea ctx2 area) :=
  C7_persistence exCtx (by decide) (by decide) true (by decide) "eth0" "nodeB" (some 5)

/-! ## Claim theorems: startup hold timer (C8) -/

/-- Claim C8: while the startup hold timer is scheduled, adjacency
advertisement and redistributed-address advertisement are no-ops: the
runs perform no KvStore write, no state persistence and push no prefix
update. -/
theorem C8_hold_timer_blocks (ctx : LinkMonitorCtx)
    (hhold : ctx.holdTimerScheduled = true) (area : String) :
    advertiseAdjacenciesArea ctx area = [] ∧
    advertiseAdjacenciesAll ctx = [] ∧
    advertiseRedistAddrs ctx = [] := by
  have h1 : ∀ ar, advertiseAdjacenciesArea ctx ar = [] := by
    intro ar
    unfold advertiseAdjacenciesArea
    simp [hhold]
  refine ⟨h1 area, ?_, ?_⟩
  · unfold advertiseAdjacenciesAll
    rw [List.flatten_eq_nil_iff]
    intro l hl
    rw [List.mem_map] at hl
    obtain ⟨conf, hconf, rfl⟩ := hl
    exact h1 conf.areaId
  · unfold advertiseRedistAddrs
    simp [hhold]

/-- Claim C8 witness: concrete context with the hold timer scheduled. -/
theorem C8_hold_timer_blocks_witness :
    advertiseAdjacenciesArea exCtxHold "area0" = [] ∧
    advertiseAdjacenciesAll exCtxHold = [] ∧
    advertiseRedistAddrs exCtxHold = [] :=
  C8_hold_timer_blocks exCtxHold (by decide) "area0"

/-! ## Best-prefix selection by PrefixMetrics (selectBestPrefixMetrics) -/

theorem tupLt_asymm {a b : Int × Int × Int} (h : tupLt a b) : ¬ tupLt b a := by
  obtain ⟨a1, a2, a3⟩ := a
  obtain ⟨b1, b2, b3⟩ := b
  unfold tupLt at h ⊢
  simp only at h ⊢
  omega

theorem tupLt_eq_of_not_of_not {a b : Int × Int × Int}
    (h1 : ¬ tupLt a b) (h2 : ¬ tupLt b a) : a = b := by
  obtain ⟨a1, a2, a3⟩ := a
  obtain ⟨b1, b2, b3⟩ := b
  unfold tupLt at h1 h2
  simp only at h1 h2
  simp only [Prod.mk.injEq]
  omega

theorem tupLe_trans {a b c : Int × Int × Int}
    (h1 : tupLe a b) (h2 : tupLe b c) : tupLe a c := by
  obtain ⟨a1, a2, a3⟩ := a
  obtain ⟨b1, b2, b3⟩ := b
  obtain ⟨c1, c2, c3⟩ := c
  unfold tupLe tupLt at h1 h2 ⊢
  simp only at h1 h2 ⊢
  omega

theorem tupLe_tupMax_left (a b : Int × Int × Int) : tupLe a (tupMax a b) := by
  unfold tupLe tupMax
  split
  · next h => exact tupLt_asymm h
  · exact fun h => tupLt_asymm h h

theorem tupLe_tupMax_right (a b : Int × Int × Int) : tupLe b (tupMax a b) := by
  unfold tupMax tupLe
  split
  · exact fun h => tupLt_asymm h h
  · next h => exact h

theorem tupMax_eq_or (a b : Int × Int × Int) : tupMax a b = a ∨ tupMax a b = b := by
  unfold tupMax
  split
  · exact Or.inr rfl
  · exact Or.inl rfl

theorem tupLe_runningMax {Key : Type} :
    ∀ (l : List (Key × PrefixEntry)) (b : Int × Int × Int),
      tupLe b (runningMax b l)
  | [], b => fun h => tupLt_asymm h h
  | e :: l, b => by
    have h1 : tupLe b (tupMax b (metricsTuple e.2.metrics)) := tupLe_tupMax_left _ _
    have h2 := tupLe_runningMax l (tupMax b (metricsTuple e.2.metrics))
    exact tupLe_trans h1 h2

theorem runningMax_cons {Key : Type} (b : Int × Int × Int)
    (e : Key × PrefixEntry) (l : List (Key × PrefixEntry)) :
    runningMax b (e :: l) = runningMax (tupMax b (metricsTuple e.2.metrics)) l :=
  rfl

theorem runningMax_achieved {Key : Type} :
    ∀ (l : List (Key × PrefixEntry)) (b : Int × Int × Int),
      runningMax b l = b ∨
        ∃ e ∈ l, metricsTuple e.2.metrics = runningMax b l
  | [], b => Or.inl rfl
  | e :: l, b => by
    rw [runningMax_cons]
    rcases runningMax_achieved l (tupMax b (metricsTuple e.2.metrics)) with h | h
    · rcases tupMax_eq_or b (metricsTuple e.2.metrics) with hm | hm
      · exact Or.inl (by rw [h, hm])
      · exact Or.inr ⟨e, List.mem_cons_self e l, by rw [h, hm]⟩
    · obtain ⟨e', he', heq⟩ := h
      exact Or.inr ⟨e', List.mem_cons_of_mem _ he', heq⟩

theorem tupLe_runningMax_of_mem {Key : Type} :
    ∀ (l : List (Key × PrefixEntry)) (b : Int × Int × Int)
      (e : Key × PrefixEntry), e ∈ l →
      tupLe (metricsTuple e.2.metrics) (runningMax b l)
  | [], _, _, h => absurd h (List.not_mem_nil _)
  | e' :: l, b, e, h => by
    rw [runningMax_cons]
    rcases List.mem_cons.mp h with rfl | hmem
    · exact tupLe_trans (tupLe_tupMax_right b (metricsTuple e.2.metrics))
        (tupLe_runningMax l _)
    · exact tupLe_runningMax_of_mem l _ e hmem

/-- Fold invariant of `selectBestPrefixMetrics`: the accumulated tuple
is the running maximum, and the accumulated keys are the initial ones
(if nothing beat the initial tuple) together with the keys of all
entries achieving the running maximum. -/
theorem selectBest_foldl_spec {Key : Type} :
    ∀ (l : List (Key × PrefixEntry)) (b : Int × Int × Int) (ks : List Key),
      (l.foldl selectBestStep (b, ks)).1 = runningMax b l ∧
      (∀ k, k ∈ (l.foldl selectBestStep (b, ks)).2 ↔
        ((k ∈ ks ∧ runningMax b l = b) ∨
          ∃ e ∈ l, e.1 = k ∧ metricsTuple e.2.metrics = runningMax b l))
  | [], b, ks => by
    constructor
    · rfl
    · intro k
      simp [runningMax]
  | e :: l, b, ks => by
    rw [List.foldl_cons, runningMax_cons]
    by_cases h1 : tupLt (metricsTuple e.2.metrics) b
    · have hmax : tupMax b (metricsTuple e.2.metrics) = b := by
        unfold tupMax
        rw [if_neg (tupLt_asymm h1)]
      have hstep : selectBestStep (b, ks) e = (b, ks) := by
        unfold selectBestStep
        rw [if_pos h1]
      rw [hstep, hmax]
      obtain ⟨ih1, ih2⟩ := selectBest_foldl_spec l b ks
      refine ⟨ih1, fun k => ?_⟩
      rw [ih2 k]
      constructor
      · rintro (h | ⟨e', he', rfl, heq⟩)
        · exact Or.inl h
        · exact Or.inr ⟨e', List.mem_cons_of_mem _ he', rfl, heq⟩
      · rintro (h | ⟨e', he', rfl, heq⟩)
        · exact Or.inl h
        · rcases List.mem_cons.mp he' with rfl | hmem
          · exfalso
            have hle : tupLe b (runningMax b l) := tupLe_runningMax l b
            rw [← heq] at hle
            exact hle h1
          · exact Or.inr ⟨e', hmem, rfl, heq⟩
    · by_cases h2 : tupLt b (metricsTuple e.2.metrics)
      · have hmax : tupMax b (metricsTuple e.2.metrics) = metricsTuple e.2.metrics := by
          unfold tupMax
          rw [if_pos h2]
        have hstep : selectBestStep (b, ks) e = (metricsTuple e.2.metrics, [e.1]) := by
          unfold selectBestStep
          rw [if_neg h1, if_pos h2]
        rw [hstep, hmax]
        obtain ⟨ih1, ih2⟩ := selectBest_foldl_spec l (metricsTuple e.2.metrics) [e.1]
        have hner : runningMax (metricsTuple e.2.metrics) l ≠ b := by
          intro habs
          have hle : tupLe (metricsTuple e.2.metrics)
              (runningMax (metricsTuple e.2.metrics) l) := tupLe_runningMax l _
          rw [habs] at hle
          exact hle h2
        refine ⟨ih1, fun k => ?_⟩
        rw [ih2 k]
        constructor
        · rintro (⟨hk, heq⟩ | ⟨e', he', rfl, heq⟩)
          · rcases List.mem_singleton.mp hk with rfl
            exact Or.inr ⟨e, List.mem_cons_self e l, rfl, heq.symm⟩
          · exact Or.inr ⟨e', List.mem_cons_of_mem _ he', rfl, heq⟩
        · rintro (⟨hk, heq⟩ | ⟨e', he', rfl, heq⟩)
          · exact absurd heq hner
          · rcases List.mem_cons.mp he' with rfl | hmem
            · exact Or.inl ⟨List.mem_singleton_self _, heq.symm⟩
            · exact Or.inr ⟨e', hmem, rfl, heq⟩
      · have heqb : metricsTuple e.2.metrics = b := tupLt_eq_of_not_of_not h1 h2
        have hmax : tupMax b (metricsTuple e.2.metrics) = b := by
          unfold tupMax
          rw [if_neg h2]
        have hstep : selectBestStep (b, ks) e = (b, ks ++ [e.1]) := by
          unfold selectBestStep
          rw [if_neg h1, if_neg h2]
        rw [hstep, hmax]
        obtain ⟨ih1, ih2⟩ := selectBest_foldl_spec l b (ks ++ [e.1])
        refine ⟨ih1, fun k => ?_⟩
        rw [ih2 k]
        constructor
        · rintro (⟨hk, heq⟩ | ⟨e', he', rfl, heq⟩)
          · rcases List.mem_append.mp hk with hk | hk
            · exact Or.inl ⟨hk, heq⟩
            · rcases List.mem_singleton.mp hk with rfl
              exact Or.inr ⟨e, List.mem_cons_self e l, rfl, by rw [heqb, heq]⟩
          · exact Or.inr ⟨e', List.mem_cons_of_mem _ he', rfl, heq⟩
        · rintro (⟨hk, heq⟩ | ⟨e', he', rfl, heq⟩)
          · exact Or.inl ⟨List.mem_append_left _ hk, heq⟩
          · rcases List.mem_cons.mp he' with rfl | hmem
            · rw [heqb] at heq
              exact Or.inl ⟨List.mem_append_right _ (List.mem_singleton_self _), heq.symm⟩
            · exact Or.inr ⟨e', hmem, rfl, heq⟩

/-- Claim C3: for a non-empty prefix map with int32-range metrics,
selectBestPrefixMetrics returns a non-empty result whose members are
exactly the keys whose comparison tuple (path-preference,
source-preference, -distance) is the lexicographic maximum over all
entries: every tied key is kept and no key with a strictly smaller
tuple is returned. -/
theorem C3_select_best_prefix_metrics {Key : Type}
    (prefixes : List (Key × PrefixEntry))
    (hne : prefixes ≠ [])
    (hnd : (prefixes.map Prod.fst).Nodup)
    (hrange : ∀ e ∈ prefixes,
      int32Min ≤ e.2.metrics.path_preference ∧
      int32Min ≤ e.2.metrics.source_preference ∧
      int32Min ≤ e.2.metrics.distance * -1) :
    selectBestPrefixMetrics prefixes ≠ [] ∧
    (∀ k, k ∈ selectBestPrefixMetrics prefixes ↔
      ∃ e ∈ prefixes, e.1 = k ∧
        ∀ e' ∈ prefixes,
          tupLe (metricsTuple e'.2.metrics) (metricsTuple e.2.metrics)) := by
  have hsent : ∀ e ∈ prefixes,
      tupLe (int32Min, int32Min, int32Min) (metricsTuple e.2.metrics) := by
    intro e he
    obtain ⟨hp, hs, hd⟩ := hrange e he
    unfold tupLe tupLt metricsTuple
    simp only
    omega
  obtain ⟨spec1, spec2⟩ :=
    selectBest_foldl_spec prefixes (int32Min, int32Min, int32Min) ([] : List Key)
  have hach : ∃ e ∈ prefixes,
      metricsTuple e.2.metrics =
        runningMax (int32Min, int32Min, int32Min) prefixes := by
    rcases runningMax_achieved prefixes (int32Min, int32Min, int32Min) with h | h
    · obtain ⟨e, l, rfl⟩ := List.exists_cons_of_ne_nil hne
      refine ⟨e, List.mem_cons_self e l, ?_⟩
      rw [h]
      exact tupLt_eq_of_not_of_not
        (hsent e (List.mem_cons_self e l))
        (by
          have hmm := tupLe_runningMax_of_mem (e :: l)
            (int32Min, int32Min, int32Min) e (List.mem_cons_self e l)
          rw [h] at hmm
          exact hmm)
    · exact h
  have hmem_iff : ∀ k, k ∈ selectBestPrefixMetrics prefixes ↔
      ∃ e ∈ prefixes, e.1 = k ∧
        metricsTuple e.2.metrics =
          runningMax (int32Min, int32Min, int32Min) prefixes := by
    intro k
    unfold selectBestPrefixMetrics
    rw [spec2 k]
    simp
  have hmax_iff : ∀ e ∈ prefixes,
      (metricsTuple e.2.metrics =
          runningMax (int32Min, int32Min, int32Min) prefixes ↔
        ∀ e' ∈ prefixes,
          tupLe (metricsTuple e'.2.metrics) (metricsTuple e.2.metrics)) := by
    intro e he
    constructor
    · intro heq e' he'
      rw [heq]
      exact tupLe_runningMax_of_mem prefixes _ e' he'
    · intro hall
      obtain ⟨a, ha, haeq⟩ := hach
      refine tupLt_eq_of_not_of_not ?_ ?_
      · rw [← haeq]
        exact hall a ha
      · exact tupLe_runningMax_of_mem prefixes _ e he
  constructor
  · obtain ⟨a, ha, haeq⟩ := hach
    intro habs
    have : a.1 ∈ selectBestPrefixMetrics prefixes :=
      (hmem_iff a.1).mpr ⟨a, ha, rfl, haeq⟩
    rw [habs] at this
    exact List.not_mem_nil _ this
  · intro k
    rw [hmem_iff k]
    constructor
    · rintro ⟨e, he, rfl, heq⟩
      exact ⟨e, he, rfl, (hmax_iff e he).mp heq⟩
    · rintro ⟨e, he, rfl, hall⟩
      exact ⟨e, he, rfl, (hmax_iff e he).mpr hall⟩

/-- Claim C3 witness: two tied best entries and one with larger
distance; the best keys are exactly k1 and k2. -/
theorem C3_select_best_prefix_metrics_witness :
    exPrefixes ≠ [] ∧
    (exPrefixes.map Prod.fst).Nodup ∧
    selectBestPrefixMetrics exPrefixes = ["k1", "k2"] ∧
    (selectBestPrefixMetrics exPrefixes ≠ [] ∧
    (∀ k, k ∈ selectBestPrefixMetrics exPrefixes ↔
      ∃ e ∈ exPrefixes, e.1 = k ∧
        ∀ e' ∈ exPrefixes,
          tupLe (metricsTuple e'.2.metrics) (metricsTuple e.2.metrics))) :=
  ⟨by decide, by decide, by decide,
   C3_select_best_prefix_metrics exPrefixes (by decide) (by decide) (by decide)⟩

/-! ## KV peer derivation (getPeersFromAdjacencies) -/

theorem optMin_assoc (a b c : Option String) :
    optMin (optMin a b) c = optMin a (optMin b c) := by
  cases a <;> cases b <;> cases c <;> simp [optMin, min_assoc]

theorem optMin_some_ne_none (a : String) (b : Option String) :
    optMin (some a) b ≠ none := by
  cases b <;> simp [optMin]

theorem minMatchingIface_cons (area n : String) (e : AdjacencyKey × AdjacencyValue)
    (l : List (AdjacencyKey × AdjacencyValue)) :
    minMatchingIface area n (e :: l) =
      if isPeerCandidate area n e then
        optMin (some e.1.ifName) (minMatchingIface area n l)
      else minMatchingIface area n l :=
  rfl

/-- The first loop of `getPeersFromAdjacencies` computes, for every
node, the minimum matching interface name (combined with whatever the
accumulator already held). -/
theorem foldl_peerStep_lookup (area : String) :
    ∀ (l : List (AdjacencyKey × AdjacencyValue)) (m : List (String × String))
      (n : String),
      alistLookup (l.foldl (peerStep area) m) n =
        optMin (alistLookup m n) (minMatchingIface area n l)
  | [], m, n => by
    cases h : alistLookup m n <;> simp [minMatchingIface, optMin, h]
  | e :: l, m, n => by
    rw [List.foldl_cons, foldl_peerStep_lookup area l (peerStep area m e) n,
      minMatchingIface_cons]
    by_cases hskip : e.2.area ≠ area ∨ e.2.isRestarting = true
    · have hnc : ¬ isPeerCandidate area n e := by
        unfold isPeerCandidate
        rcases hskip with h | h
        · exact fun hc => h hc.2.1
        · exact fun hc => by rw [hc.2.2] at h; cases h
      rw [if_neg hnc]
      have hstep : peerStep area m e = m := by
        unfold peerStep
        rw [if_pos hskip]
      rw [hstep]
    · have harea : e.2.area = area := by
        by_contra hc
        exact hskip (Or.inl hc)
      have hrest : e.2.isRestarting = false := by
        rcases Bool.eq_false_or_eq_true e.2.isRestarting with h | h
        · exact absurd (Or.inr h) hskip
        · exact h
      by_cases hn : e.1.nodeName = n
      · have hc : isPeerCandidate area n e := ⟨hn, harea, hrest⟩
        rw [if_pos hc]
        cases hm : alistLookup m e.1.nodeName with
        | none =>
          have hstep : peerStep area m e = m ++ [(e.1.nodeName, e.1.ifName)] := by
            unfold peerStep
            rw [if_neg hskip, hm]
          rw [hstep]
          have hlook : alistLookup (m ++ [(e.1.nodeName, e.1.ifName)]) n =
              some e.1.ifName := by
            rw [alistLookup_append]
            rw [hn] at hm
            rw [hm]
            simp [alistLookup, hn]
          rw [hlook]
          rw [hn] at hm
          rw [hm]
          cases hmm : minMatchingIface area n l <;> simp [optMin]
        | some i =>
          by_cases hlt : e.1.ifName < i
          · have hstep : peerStep area m e = alistUpdate m e.1.nodeName e.1.ifName := by
              unfold peerStep
              rw [if_neg hskip, hm]
              dsimp only
              rw [if_pos hlt]
            rw [hstep]
            have hlook : alistLookup (alistUpdate m e.1.nodeName e.1.ifName) n =
                some e.1.ifName := by
              rw [← hn]
              exact alistLookup_update_self m e.1.nodeName e.1.ifName (by rw [hm]; rfl)
            rw [hlook]
            rw [hn] at hm
            rw [hm, ← optMin_assoc]
            have : optMin (some i) (some e.1.ifName) = some e.1.ifName := by
              simp [optMin, min_eq_right (le_of_lt hlt)]
            rw [this]
          · have hstep : peerStep area m e = m := by
              unfold peerStep
              rw [if_neg hskip, hm]
              dsimp only
              rw [if_neg hlt]
            rw [hstep]
            rw [hn] at hm
            rw [hm, ← optMin_assoc]
            have : optMin (some i) (some e.1.ifName) = some i := by
              simp [optMin, min_eq_left (le_of_not_lt hlt)]
            rw [this]
      · have hnc : ¬ isPeerCandidate area n e := fun hc => hn hc.1
        rw [if_neg hnc]
        have hlook : alistLookup (peerStep area m e) n = alistLookup m n := by
          unfold peerStep
          rw [if_neg hskip]
          cases hm : alistLookup m e.1.nodeName with
          | none =>
            rw [alistLookup_append]
            cases hmn : alistLookup m n
            · simp [alistLookup, hn]
            · rfl
          | some i =>
            dsimp only
            by_cases hlt : e.1.ifName < i
            · rw [if_pos hlt]
              exact alistLookup_update_other m e.1.nodeName n e.1.ifName
                (fun h => hn h.symm)
            · rw [if_neg hlt]
        rw [hlook]

theorem peerStep_keys_nodup (area : String) (m : List (String × String))
    (e : AdjacencyKey × AdjacencyValue) (h : (m.map Prod.fst).Nodup) :
    ((peerStep area m e).map Prod.fst).Nodup := by
  unfold peerStep
  split
  · exact h
  · split
    · next hm =>
      rw [List.map_append, List.nodup_append]
      refine ⟨h, List.nodup_singleton _, ?_⟩
      intro x hx hy
      simp only [List.map_cons, List.map_nil, List.mem_singleton] at hy
      subst hy
      exact (alistLookup_eq_none_iff_not_mem_keys m e.1.nodeName).mp hm hx
    · split
      · rw [alistUpdate_keys]
        exact h
      · exact h

theorem foldl_peerStep_keys_nodup (area : String) :
    ∀ (l : List (AdjacencyKey × AdjacencyValue)) (m : List (String × String)),
      (m.map Prod.fst).Nodup → ((l.foldl (peerStep area) m).map Prod.fst).Nodup
  | [], _, h => h
  | e :: l, m, h =>
    foldl_peerStep_keys_nodup area l (peerStep area m e)
      (peerStep_keys_nodup area m e h)

theorem minMatchingIface_eq_none_iff (area n : String) :
    ∀ (l : List (AdjacencyKey × AdjacencyValue)),
      minMatchingIface area n l = none ↔ ∀ e ∈ l, ¬ isPeerCandidate area n e
  | [] => by simp [minMatchingIface]
  | e :: l => by
    rw [minMatchingIface_cons]
    by_cases hc : isPeerCandidate area n e
    · rw [if_pos hc]
      constructor
      · intro h
        exact absurd h (optMin_some_ne_none _ _)
      · intro h
        exact absurd hc (h e (List.mem_cons_self e l))
    · rw [if_neg hc, minMatchingIface_eq_none_iff area n l]
      constructor
      · intro h e' he'
        rcases List.mem_cons.mp he' with rfl | hm
        · exact hc
        · exact h e' hm
      · intro h e' he'
        exact h e' (List.mem_cons_of_mem _ he')

/-- The minimum matching interface name is achieved by a peer-candidate
adjacency entry and bounds all of them from below. -/
theorem minMatchingIface_spec (area n : String) :
    ∀ (l : List (AdjacencyKey × AdjacencyValue)) (i : String),
      minMatchingIface area n l = some i →
      ∃ e ∈ l, isPeerCandidate area n e ∧ e.1.ifName = i ∧
        ∀ e' ∈ l, isPeerCandidate area n e' → i ≤ e'.1.ifName
  | [], i, h => by simp [minMatchingIface] at h
  | e :: l, i, h => by
    rw [minMatchingIface_cons] at h
    by_cases hc : isPeerCandidate area n e
    · rw [if_pos hc] at h
      cases hr : minMatchingIface area n l with
      | none =>
        rw [hr] at h
        simp only [optMin, Option.some.injEq] at h
        subst h
        refine ⟨e, List.mem_cons_self e l, hc, rfl, ?_⟩
        intro e' he' hc'
        rcases List.mem_cons.mp he' with rfl | hm
        · exact le_refl _
        · exact absurd hc' ((minMatchingIface_eq_none_iff area n l).mp hr e' hm)
      | some j =>
        rw [hr] at h
        simp only [optMin, Option.some.injEq] at h
        obtain ⟨a, ha, hac, haif, hamin⟩ := minMatchingIface_spec area n l j hr
        rcases le_total e.1.ifName j with hle | hle
        · have hi : i = e.1.ifName := by rw [← h, min_eq_left hle]
          subst hi
          refine ⟨e, List.mem_cons_self e l, hc, rfl, ?_⟩
          intro e' he' hc'
          rcases List.mem_cons.mp he' with rfl | hm
          · exact le_refl _
          · exact le_trans hle (hamin e' hm hc')
        · have hi : i = j := by rw [← h, min_eq_right hle]
          subst hi
          refine ⟨a, List.mem_cons_of_mem _ ha, hac, haif, ?_⟩
          intro e' he' hc'
          rcases List.mem_cons.mp he' with rfl | hm
          · exact hle
          · exact hamin e' hm hc'
    · rw [if_neg hc] at h
      obtain ⟨a, ha, hac, haif, hamin⟩ := minMatchingIface_spec area n l i h
      refine ⟨a, List.mem_cons_of_mem _ ha, hac, haif, ?_⟩
      intro e' he' hc'
      rcases List.mem_cons.mp he' with rfl | hm
      · exact absurd hc' hc
      · exact hamin e' hm hc'

/-- filterMap by a key-preserving total function keeps the key list. -/
theorem filterMap_keys_of_forall {α β γ : Type} (l : List (α × β))
    (f : α × β → Option (α × γ))
    (hf : ∀ p ∈ l, ∃ v, f p = some (p.1, v)) :
    (l.filterMap f).map Prod.fst = l.map Prod.fst := by
  induction l with
  | nil => rfl
  | cons p l ih =>
    obtain ⟨v, hv⟩ := hf p (List.mem_cons_self p l)
    rw [List.filterMap_cons, hv]
    simp only [List.map_cons]
    rw [ih (fun q hq => hf q (List.mem_cons_of_mem _ hq))]

/-- Claim C1: for an adjacency map (distinct keys) and an area, the
derived KV peer map has pairwise distinct node keys; a node has an entry
exactly when it has at least one non-restarting adjacency in the area;
and the spec of that entry is the one stored on the adjacency with the
lexicographically smallest local interface name among that node's
non-restarting adjacencies in the area — restarting adjacencies and
those of other areas are excluded, so there is at most one KV peer
session per (area, remote node). -/
theorem C1_kv_peers (adjacencies : List (AdjacencyKey × AdjacencyValue))
    (area n : String) (hnd : (adjacencies.map Prod.fst).Nodup) :
    ((getPeersFromAdjacencies adjacencies area).map Prod.fst).Nodup ∧
    ((∃ s, alistLookup (getPeersFromAdjacencies adjacencies area) n = some s) ↔
      ∃ e ∈ adjacencies, isPeerCandidate area n e) ∧
    (∀ s, alistLookup (getPeersFromAdjacencies adjacencies area) n = some s →
      ∃ e ∈ adjacencies, isPeerCandidate area n e ∧ e.2.peerSpec = s ∧
        ∀ e' ∈ adjacencies, isPeerCandidate area n e' →
          e.1.ifName ≤ e'.1.ifName) := by
  have hlookNtif : ∀ x, alistLookup (neighborToIface adjacencies area) x =
      minMatchingIface area x adjacencies := by
    intro x
    unfold neighborToIface
    rw [foldl_peerStep_lookup area adjacencies [] x]
    rfl
  have hndk : ((neighborToIface adjacencies area).map Prod.fst).Nodup :=
    foldl_peerStep_keys_nodup area adjacencies [] List.nodup_nil
  have hres : ∀ p ∈ neighborToIface adjacencies area,
      ∃ e ∈ adjacencies, isPeerCandidate area p.1 e ∧ e.1.ifName = p.2 ∧
        alistLookup adjacencies { nodeName := p.1, ifName := p.2 } = some e.2 ∧
        ∀ e' ∈ adjacencies, isPeerCandidate area p.1 e' → p.2 ≤ e'.1.ifName := by
    intro p hp
    have hlp : alistLookup (neighborToIface adjacencies area) p.1 = some p.2 :=
      alistLookup_of_mem_nodup _ p hndk hp
    rw [hlookNtif p.1] at hlp
    obtain ⟨⟨⟨en, ei⟩, ev⟩, he, hec, heif, hemin⟩ :=
      minMatchingIface_spec area p.1 adjacencies p.2 hlp
    obtain ⟨hn1, hn2, hn3⟩ := hec
    simp only at hn1 heif
    subst hn1
    subst heif
    refine ⟨⟨⟨p.1, p.2⟩, ev⟩, he, ⟨rfl, hn2, hn3⟩, rfl, ?_, hemin⟩
    exact alistLookup_of_mem_nodup adjacencies _ hnd he
  have hkeys : (getPeersFromAdjacencies adjacencies area).map Prod.fst =
      (neighborToIface adjacencies area).map Prod.fst := by
    unfold getPeersFromAdjacencies
    apply filterMap_keys_of_forall
    intro p hp
    obtain ⟨e, he, hc, hif, hlk, hmin⟩ := hres p hp
    refine ⟨e.2.peerSpec, ?_⟩
    rw [hlk]
    rfl
  refine ⟨?_, ?_, ?_⟩
  · rw [hkeys]
    exact hndk
  · constructor
    · rintro ⟨s, hs⟩
      have hmem := alistLookup_mem _ _ _ hs
      unfold getPeersFromAdjacencies at hmem
      rw [List.mem_filterMap] at hmem
      obtain ⟨p, hp, hfp⟩ := hmem
      obtain ⟨e, he, hc, hif, hlk, hmin⟩ := hres p hp
      rw [hlk] at hfp
      simp only [Option.map_some', Option.some.injEq, Prod.mk.injEq] at hfp
      obtain ⟨hp1, _⟩ := hfp
      exact ⟨e, he, hp1 ▸ hc⟩
    · rintro ⟨e, he, hc⟩
      have h1 : minMatchingIface area n adjacencies ≠ none := by
        intro habs
        exact (minMatchingIface_eq_none_iff area n adjacencies).mp habs e he hc
      have h2 : (alistLookup (neighborToIface adjacencies area) n).isSome := by
        rw [hlookNtif n]
        exact Option.isSome_iff_ne_none.mpr h1
      have h3 : n ∈ (getPeersFromAdjacencies adjacencies area).map Prod.fst := by
        rw [hkeys]
        exact (alistLookup_isSome_iff_mem_keys _ _).mp h2
      have h4 := (alistLookup_isSome_iff_mem_keys
        (getPeersFromAdjacencies adjacencies area) n).mpr h3
      exact Option.isSome_iff_exists.mp h4
  · intro s hs
    have hmem := alistLookup_mem _ _ _ hs
    unfold getPeersFromAdjacencies at hmem
    rw [List.mem_filterMap] at hmem
    obtain ⟨p, hp, hfp⟩ := hmem
    obtain ⟨e, he, hc, hif, hlk, hmin⟩ := hres p hp
    rw [hlk] at hfp
    simp only [Option.map_some', Option.some.injEq, Prod.mk.injEq] at hfp
    obtain ⟨hp1, hp2⟩ := hfp
    subst hp1
    refine ⟨e, he, hc, hp2, ?_⟩
    intro e' he' hc'
    rw [hif]
    exact hmin e' he' hc'

/-- Claim C1 witness: on the parallel-link example the peer chosen for
nodeB in area0 is the one on eth1 (smallest interface of the
non-restarting area0 adjacencies). -/
theorem C1_kv_peers_witness :
    (exPeerAdjacencies.map Prod.fst).Nodup ∧
    alistLookup (getPeersFromAdjacencies exPeerAdjacencies "area0") "nodeB" =
      some exSpecB1 ∧
    (((getPeersFromAdjacencies exPeerAdjacencies "area0").map Prod.fst).Nodup ∧
    ((∃ s, alistLookup (getPeersFromAdjacencies exPeerAdjacencies "area0") "nodeB" =
        some s) ↔
      ∃ e ∈ exPeerAdjacencies, isPeerCandidate "area0" "nodeB" e) ∧
    (∀ s, alistLookup (getPeersFromAdjacencies exPeerAdjacencies "area0") "nodeB" =
        some s →
      ∃ e ∈ exPeerAdjacencies, isPeerCandidate "area0" "nodeB" e ∧
        e.2.peerSpec = s ∧
        ∀ e' ∈ exPeerAdjacencies, isPeerCandidate "area0" "nodeB" e' →
          e.1.ifName ≤ e'.1.ifName)) :=
  ⟨by decide, by decide, C1_kv_peers exPeerAdjacencies "area0" "nodeB" (by decide)⟩

end Openr
